import Mathlib

set_option maxRecDepth 10000

/-!
Verification of the MLS-MPM simulation in `mlsmpm_materials2.py`.

The simulation state is a list of particles (position, velocity, affine
velocity matrix C, deformation gradient F, material id, plastic ratio Jp)
and a background grid of momentum/velocity vectors and masses indexed by
`ℤ × ℤ` (the real array covers `[0, n_grid) × [0, n_grid)`).

Real arithmetic is modelled by `ℚ`.  The three external scalar/matrix
primitives the code calls — `ti.svd`, `ti.sqrt`, `ti.exp` — are passed
as oracle function parameters (`svdFn`, `sqrtFn`, `expFn`); theorems that
need properties of them take those properties as explicit hypotheses.
-/

/-! ## 2×2 matrices and 2-vectors -/

abbrev Vec2 : Type := ℚ × ℚ

/-- A 2×2 rational matrix: `a b / c d` (row major). -/
structure Mat2 where
  a : ℚ
  b : ℚ
  c : ℚ
  d : ℚ
deriving DecidableEq, Repr

namespace Mat2

@[ext] theorem ext2 {M N : Mat2} (ha : M.a = N.a) (hb : M.b = N.b)
    (hc : M.c = N.c) (hd : M.d = N.d) : M = N := by
  cases M; cases N; simp_all

def mul (M N : Mat2) : Mat2 :=
  ⟨M.a * N.a + M.b * N.c, M.a * N.b + M.b * N.d,
   M.c * N.a + M.d * N.c, M.c * N.b + M.d * N.d⟩

def add (M N : Mat2) : Mat2 := ⟨M.a + N.a, M.b + N.b, M.c + N.c, M.d + N.d⟩

def sub (M N : Mat2) : Mat2 := ⟨M.a - N.a, M.b - N.b, M.c - N.c, M.d - N.d⟩

def smul (k : ℚ) (M : Mat2) : Mat2 := ⟨k * M.a, k * M.b, k * M.c, k * M.d⟩

def transpose (M : Mat2) : Mat2 := ⟨M.a, M.c, M.b, M.d⟩

def det (M : Mat2) : ℚ := M.a * M.d - M.b * M.c

/-- Matrix–vector product `M @ v`. -/
def mulVec (M : Mat2) (v : Vec2) : Vec2 :=
  (M.a * v.1 + M.b * v.2, M.c * v.1 + M.d * v.2)

/-- Outer product `u.outer_product w` : entry `(i, j)` is `u i * w j`. -/
def outer (u w : Vec2) : Mat2 :=
  ⟨u.1 * w.1, u.1 * w.2, u.2 * w.1, u.2 * w.2⟩

instance : Mul Mat2 := ⟨mul⟩
instance : Add Mat2 := ⟨add⟩
instance : Sub Mat2 := ⟨sub⟩
instance : SMul ℚ Mat2 := ⟨smul⟩
instance : One Mat2 := ⟨⟨1, 0, 0, 1⟩⟩
instance : Zero Mat2 := ⟨⟨0, 0, 0, 0⟩⟩

@[simp] theorem mul_a (M N : Mat2) : (M * N).a = M.a * N.a + M.b * N.c := rfl
@[simp] theorem mul_b (M N : Mat2) : (M * N).b = M.a * N.b + M.b * N.d := rfl
@[simp] theorem mul_c (M N : Mat2) : (M * N).c = M.c * N.a + M.d * N.c := rfl
@[simp] theorem mul_d (M N : Mat2) : (M * N).d = M.c * N.b + M.d * N.d := rfl
@[simp] theorem add_a (M N : Mat2) : (M + N).a = M.a + N.a := rfl
@[simp] theorem add_b (M N : Mat2) : (M + N).b = M.b + N.b := rfl
@[simp] theorem add_c (M N : Mat2) : (M + N).c = M.c + N.c := rfl
@[simp] theorem add_d (M N : Mat2) : (M + N).d = M.d + N.d := rfl
@[simp] theorem sub_a (M N : Mat2) : (M - N).a = M.a - N.a := rfl
@[simp] theorem sub_b (M N : Mat2) : (M - N).b = M.b - N.b := rfl
@[simp] theorem sub_c (M N : Mat2) : (M - N).c = M.c - N.c := rfl
@[simp] theorem sub_d (M N : Mat2) : (M - N).d = M.d - N.d := rfl
@[simp] theorem smul_a (k : ℚ) (M : Mat2) : (k • M).a = k * M.a := rfl
@[simp] theorem smul_b (k : ℚ) (M : Mat2) : (k • M).b = k * M.b := rfl
@[simp] theorem smul_c (k : ℚ) (M : Mat2) : (k • M).c = k * M.c := rfl
@[simp] theorem smul_d (k : ℚ) (M : Mat2) : (k • M).d = k * M.d := rfl
@[simp] theorem transpose_a (M : Mat2) : M.transpose.a = M.a := rfl
@[simp] theorem transpose_b (M : Mat2) : M.transpose.b = M.c := rfl
@[simp] theorem transpose_c (M : Mat2) : M.transpose.c = M.b := rfl
@[simp] theorem transpose_d (M : Mat2) : M.transpose.d = M.d := rfl
@[simp] theorem one_a : (1 : Mat2).a = 1 := rfl
@[simp] theorem one_b : (1 : Mat2).b = 0 := rfl
@[simp] theorem one_c : (1 : Mat2).c = 0 := rfl
@[simp] theorem one_d : (1 : Mat2).d = 1 := rfl
@[simp] theorem zero_a : (0 : Mat2).a = 0 := rfl
@[simp] theorem zero_b : (0 : Mat2).b = 0 := rfl
@[simp] theorem zero_c : (0 : Mat2).c = 0 := rfl
@[simp] theorem zero_d : (0 : Mat2).d = 0 := rfl

theorem mat_mul_assoc (M N P : Mat2) : M * N * P = M * (N * P) := by
  ext <;> simp <;> ring

theorem transpose_mul (M N : Mat2) : (M * N).transpose = N.transpose * M.transpose := by
  ext <;> simp <;> ring

theorem det_mul (M N : Mat2) : (M * N).det = M.det * N.det := by
  simp [det]; ring

theorem det_transpose (M : Mat2) : M.transpose.det = M.det := by
  simp [det]; ring

theorem mat_one_mul (M : Mat2) : 1 * M = M := by ext <;> simp

theorem mat_mul_one (M : Mat2) : M * 1 = M := by ext <;> simp

end Mat2

/-- Vector addition on `Vec2`. -/
def vadd (u w : Vec2) : Vec2 := (u.1 + w.1, u.2 + w.2)

/-- Scalar–vector product on `Vec2`. -/
def vsmul (k : ℚ) (u : Vec2) : Vec2 := (k * u.1, k * u.2)

/-! ## Simulation constants (from the source header) -/

def n_particles : ℕ := 10000

def n_grid : ℤ := 128

def dx : ℚ := 1 / (n_grid : ℚ)

def inv_dx : ℚ := (n_grid : ℚ)

def dt : ℚ := 1 / 10000

def gravity : ℚ := 70

def p_vol : ℚ := (dx * (1 / 2)) ^ 2

def p_rho : ℚ := 1

def p_mass : ℚ := p_vol * p_rho

def Eyoung : ℚ := 1000

def nuPoisson : ℚ := 1 / 5

def mu_0 : ℚ := Eyoung / (2 * (1 + nuPoisson))

def lambda_0 : ℚ := Eyoung * nuPoisson / ((1 + nuPoisson) * (1 - 2 * nuPoisson))

/-! ## State -/

/-- One material point: position `x`, velocity `v`, affine velocity matrix
`C`, deformation gradient `F`, material id (0 fluid, 1 jelly, 2 snow),
plastic ratio `Jp`. -/
structure Particle where
  x : Vec2
  v : Vec2
  C : Mat2
  F : Mat2
  material : ℤ
  Jp : ℚ
deriving DecidableEq, Repr

/-- The background grid: node momentum/velocity `v` and node mass `m`.
The real array covers indices in `[0, n_grid) × [0, n_grid)`; the
functions extend it to all of `ℤ × ℤ` uniformly. -/
structure Grid where
  v : ℤ × ℤ → Vec2
  m : ℤ × ℤ → ℚ

structure SimState where
  particles : List Particle
  grid : Grid

/-! ## Base cell, fractional offset, B-spline weights -/

/-- Cast of a rational to int, truncating toward zero (taichi `cast(int)`). -/
def truncQ (q : ℚ) : ℤ := if 0 ≤ q then Int.floor q else -Int.floor (-q)

/-- The base cell `base = (x * inv_dx - 0.5).cast(int)` — identical in P2G and G2P. -/
def baseOf (q : Vec2) : ℤ × ℤ :=
  (truncQ (q.1 * inv_dx - 1 / 2), truncQ (q.2 * inv_dx - 1 / 2))

/-- The fractional offset `fx = x * inv_dx - base.cast(float)`. -/
def fxOf (q : Vec2) : Vec2 :=
  (q.1 * inv_dx - ((baseOf q).1 : ℚ), q.2 * inv_dx - ((baseOf q).2 : ℚ))

/-- The quadratic B-spline weights
`w = [0.5 * (1.5 - fx) ^ 2, 0.75 - (fx - 1) ^ 2, 0.5 * (fx - 0.5) ^ 2]`,
indexed by `i ∈ {0, 1, 2}` — identical in P2G and G2P. -/
def bsplineW (f : ℚ) (i : ℕ) : ℚ :=
  if i = 0 then (1 / 2) * (3 / 2 - f) ^ 2
  else if i = 1 then 3 / 4 - (f - 1) ^ 2
  else (1 / 2) * (f - 1 / 2) ^ 2

/-- The 3×3 neighborhood offsets, in `ti.ndrange(3, 3)` order. -/
def offsets : List (ℕ × ℕ) :=
  [(0, 0), (0, 1), (0, 2), (1, 0), (1, 1), (1, 2), (2, 0), (2, 1), (2, 2)]

/-! ## P2G -/

/-- Results of the per-particle constitutive computation in `P2G`
(lines 31–53 of the source): updated deformation gradient `Fnew`,
updated plastic ratio `Jpnew`, volume ratio `J`, hardened Lamé
parameter `la`, the constitutive stress of line 51 (`stress`), and the
scatter matrix `affine` of line 53. -/
structure P2GCalc where
  Fnew : Mat2
  Jpnew : ℚ
  J : ℚ
  la : ℚ
  stress : Mat2
  affine : Mat2

/-- Per-particle body of `P2G` up to the scatter loop, translated line by
line from the source.  `svdFn` models `ti.svd`, `sqrtFn` models
`ti.sqrt`, `expFn` models `ti.exp`. -/
def p2gCompute (svdFn : Mat2 → Mat2 × Mat2 × Mat2) (sqrtFn expFn : ℚ → ℚ)
    (p : Particle) : P2GCalc :=
  let F1 := ((1 : Mat2) + dt • p.C) * p.F
  let h0 := max (1 / 10) (min 5 (expFn (10 * (1 - p.Jp))))
  let h := if p.material = 1 then 3 / 10 else h0
  let mu1 := mu_0 * h
  let la := lambda_0 * h
  let mu := if p.material = 0 then 0 else mu1
  let U := (svdFn F1).1
  let sig := (svdFn F1).2.1
  let V := (svdFn F1).2.2
  let new0 := if p.material = 2 then min (max sig.a (1 - 25 / 1000)) (1 + 45 / 10000) else sig.a
  let Jp1 := p.Jp * (sig.a / new0)
  let new1 := if p.material = 2 then min (max sig.d (1 - 25 / 1000)) (1 + 45 / 10000) else sig.d
  let Jp2 := Jp1 * (sig.d / new1)
  let sig2 : Mat2 := ⟨new0, sig.b, sig.c, new1⟩
  let J := new0 * new1
  let F2 := if p.material = 0 then sqrtFn J • (1 : Mat2)
            else if p.material = 2 then U * sig2 * V.transpose
            else F1
  let stress := (2 * mu) • ((F2 - U * V.transpose) * F2.transpose)
              + (la * J * (J - 1)) • (1 : Mat2)
  let stressScaled := (-dt * p_vol * 4 * inv_dx * inv_dx) • stress
  ⟨F2, Jp2, J, la, stress, stressScaled + p_mass • p.C⟩

/-- Accumulate `dv` into the node momentum and `dm` into the node mass at
index `pos`. -/
def addGrid (g : Grid) (pos : ℤ × ℤ) (dv : Vec2) (dm : ℚ) : Grid :=
  { v := fun q => if q = pos then vadd (g.v q) dv else g.v q,
    m := fun q => if q = pos then g.m q + dm else g.m q }

/-- The 3×3 scatter loop of `P2G` (lines 54–59) for one particle. -/
def scatterP2G (g : Grid) (p : Particle) (affine : Mat2) : Grid :=
  let base := baseOf p.x
  let fx := fxOf p.x
  offsets.foldl (fun g off =>
    let dpos : Vec2 := (((off.1 : ℚ) - fx.1) * dx, ((off.2 : ℚ) - fx.2) * dx)
    let weight := bsplineW fx.1 off.1 * bsplineW fx.2 off.2
    addGrid g (base.1 + (off.1 : ℤ), base.2 + (off.2 : ℤ))
      (vsmul weight (vadd (vsmul p_mass p.v) (affine.mulVec dpos))) (weight * p_mass)) g

/-- The particle-side effect of `P2G` on one particle: `F` and `Jp` are
overwritten with the constitutive results. -/
def p2gParticle (svdFn : Mat2 → Mat2 × Mat2 × Mat2) (sqrtFn expFn : ℚ → ℚ)
    (p : Particle) : Particle :=
  { p with F := (p2gCompute svdFn sqrtFn expFn p).Fnew,
           Jp := (p2gCompute svdFn sqrtFn expFn p).Jpnew }

/-- Stage `P2G`: every particle scatters weighted mass and momentum into the
grid, and its own `F`, `Jp` are updated. -/
def P2G (svdFn : Mat2 → Mat2 × Mat2 × Mat2) (sqrtFn expFn : ℚ → ℚ)
    (g : Grid) (ps : List Particle) : Grid × List Particle :=
  (ps.foldl (fun g p => scatterP2G g p (p2gCompute svdFn sqrtFn expFn p).affine) g,
   ps.map (p2gParticle svdFn sqrtFn expFn))

/-! ## Grid update -/

/-- Stage `update_gridv`: for each node with positive mass, momentum becomes
velocity and gravity is applied to the y component; other nodes are
untouched. -/
def update_gridv (grav : ℚ) (g : Grid) : Grid :=
  { v := fun ij =>
      if 0 < g.m ij then
        let w := vsmul (1 / g.m ij) (g.v ij)
        (w.1, w.2 - dt * grav)
      else g.v ij,
    m := g.m }

/-- The per-node body of `enforce_boundary` (lines 89–92), with the four
conditional assignments applied in source order. -/
def enforceNode (ij : ℤ × ℤ) (v : Vec2) : Vec2 :=
  let v0 := if ij.1 < 3 ∧ v.1 < 0 then 0 else v.1
  let v0 := if n_grid - 3 < ij.1 ∧ 0 < v0 then 0 else v0
  let v1 := if ij.2 < 3 ∧ v.2 < 0 then 0 else v.2
  let v1 := if n_grid - 3 < ij.2 ∧ 0 < v1 then 0 else v1
  (v0, v1)

def enforce_boundary (g : Grid) : Grid :=
  { v := fun ij => enforceNode ij (g.v ij), m := g.m }

/-! ## G2P -/

/-- Stage `G2P` for one particle: gather weighted grid velocities into a new
velocity and affine matrix, then advect the position. -/
def g2pParticle (g : Grid) (p : Particle) : Particle :=
  let base := baseOf p.x
  let fx := fxOf p.x
  let acc := offsets.foldl (fun (acc : Vec2 × Mat2) off =>
      let dpos : Vec2 := ((off.1 : ℚ) - fx.1, (off.2 : ℚ) - fx.2)
      let gv := g.v (base.1 + (off.1 : ℤ), base.2 + (off.2 : ℤ))
      let weight := bsplineW fx.1 off.1 * bsplineW fx.2 off.2
      (vadd acc.1 (vsmul weight gv), acc.2 + (4 * inv_dx * weight) • Mat2.outer gv dpos))
    ((0, 0), 0)
  { p with v := acc.1, C := acc.2, x := (p.x.1 + dt * acc.1.1, p.x.2 + dt * acc.1.2) }

def G2P (g : Grid) (ps : List Particle) : List Particle := ps.map (g2pParticle g)

/-! ## Substep driver -/

/-- The grid-clearing loop at the start of `substep`: every node's
momentum and mass are reset to zero. -/
def resetGrid (_g : Grid) : Grid :=
  { v := fun _ => (0, 0), m := fun _ => 0 }

/-- One simulation substep: clear the grid, P2G, grid update, boundary
enforcement, G2P.  `grav` is the configured gravity (70 in the source). -/
def substep (grav : ℚ) (svdFn : Mat2 → Mat2 × Mat2 × Mat2) (sqrtFn expFn : ℚ → ℚ)
    (s : SimState) : SimState :=
  let g0 := resetGrid s.grid
  let gps := P2G svdFn sqrtFn expFn g0 s.particles
  let g2 := enforce_boundary (update_gridv grav gps.1)
  { particles := G2P g2 gps.2, grid := g2 }

/-- Run `n` consecutive substeps. -/
def substepN (grav : ℚ) (svdFn : Mat2 → Mat2 × Mat2 × Mat2) (sqrtFn expFn : ℚ → ℚ) :
    ℕ → SimState → SimState
  | 0, s => s
  | n + 1, s => substep grav svdFn sqrtFn expFn (substepN grav svdFn sqrtFn expFn n s)

/-! ## Predicates used by the claims -/

/-- The particle position band `[3·dx, 1 − 3·dx]²`. -/
def inBand (q : Vec2) : Prop :=
  3 * dx ≤ q.1 ∧ q.1 ≤ 1 - 3 * dx ∧ 3 * dx ≤ q.2 ∧ q.2 ≤ 1 - 3 * dx

instance (q : Vec2) : Decidable (inBand q) := by unfold inBand; infer_instance

/-- A grid index inside the real array `[0, n_grid) × [0, n_grid)`. -/
def inWindow (ij : ℤ × ℤ) : Prop :=
  0 ≤ ij.1 ∧ ij.1 < n_grid ∧ 0 ≤ ij.2 ∧ ij.2 < n_grid

instance (ij : ℤ × ℤ) : Decidable (inWindow ij) := by unfold inWindow; infer_instance

/-- The base cell and its 3×3 neighborhood all lie inside the grid. -/
def scatterInBounds (p : Particle) : Prop :=
  0 ≤ (baseOf p.x).1 ∧ (baseOf p.x).1 ≤ n_grid - 3 ∧
  0 ≤ (baseOf p.x).2 ∧ (baseOf p.x).2 ≤ n_grid - 3

instance (p : Particle) : Decidable (scatterInBounds p) := by
  unfold scatterInBounds; infer_instance

/-- Total mass held on the grid array. -/
def totalGridMass (g : Grid) : ℚ :=
  ∑ ij ∈ Finset.Icc (0 : ℤ) (n_grid - 1) ×ˢ Finset.Icc (0 : ℤ) (n_grid - 1), g.m ij

/-- Predicate: `s` is a singular value of `M`: it is nonnegative and `s ^ 2` is a
root of the characteristic polynomial of `Mᵀ M`. -/
def isSingularValue (M : Mat2) (s : ℚ) : Prop :=
  0 ≤ s ∧ (M.transpose * M - s ^ 2 • (1 : Mat2)).det = 0

instance (M : Mat2) (s : ℚ) : Decidable (isSingularValue M s) := by
  unfold isSingularValue; infer_instance

/-- The properties of the external 2×2 SVD used by the theorems:
`U` and `V` are orthogonal and `Σ` is diagonal. -/
def svdValid (svdFn : Mat2 → Mat2 × Mat2 × Mat2) : Prop :=
  ∀ M : Mat2,
    (svdFn M).1.transpose * (svdFn M).1 = 1 ∧
    (svdFn M).2.2.transpose * (svdFn M).2.2 = 1 ∧
    (svdFn M).2.2 * (svdFn M).2.2.transpose = 1 ∧
    (svdFn M).2.1.b = 0 ∧ (svdFn M).2.1.c = 0

/-! ## Helper lemmas -/

theorem truncQ_of_nonneg (t : ℚ) (h : 0 ≤ t) : truncQ t = Int.floor t := by
  simp [truncQ, h]

theorem truncQ_bounds (t : ℚ) (hlo : 5 / 2 ≤ t) (hhi : t ≤ 249 / 2) :
    2 ≤ truncQ t ∧ truncQ t ≤ 124 := by
  rw [truncQ_of_nonneg t (by linarith)]
  constructor
  · exact Int.le_floor.mpr (by push_cast; linarith)
  · have h1 : ((Int.floor t : ℤ) : ℚ) ≤ t := Int.floor_le t
    have h2 : ((Int.floor t : ℤ) : ℚ) < 125 := by linarith
    have h3 : (Int.floor t : ℤ) < 125 := by exact_mod_cast h2
    omega

theorem frac_band (t : ℚ) (h : 0 ≤ t) :
    1 / 2 ≤ t + 1 / 2 - ((truncQ t : ℤ) : ℚ) ∧ t + 1 / 2 - ((truncQ t : ℤ) : ℚ) < 3 / 2 := by
  rw [truncQ_of_nonneg t h]
  have h1 : ((Int.floor t : ℤ) : ℚ) ≤ t := Int.floor_le t
  have h2 : t < ((Int.floor t : ℤ) : ℚ) + 1 := Int.lt_floor_add_one t
  constructor <;> linarith

/-- Both components of `fxOf q` lie in `[1/2, 3/2)` whenever `q` is in the
band `[3·dx, 1 − 3·dx]²`. -/
theorem fx_band (q : Vec2) (h : inBand q) :
    (1 / 2 ≤ (fxOf q).1 ∧ (fxOf q).1 < 3 / 2) ∧
    (1 / 2 ≤ (fxOf q).2 ∧ (fxOf q).2 < 3 / 2) := by
  obtain ⟨h1, h2, h3, h4⟩ := h
  have e1 : (fxOf q).1 = (q.1 * inv_dx - 1 / 2) + 1 / 2 - ((truncQ (q.1 * inv_dx - 1 / 2) : ℤ) : ℚ) := by
    simp only [fxOf, baseOf]; ring
  have e2 : (fxOf q).2 = (q.2 * inv_dx - 1 / 2) + 1 / 2 - ((truncQ (q.2 * inv_dx - 1 / 2) : ℤ) : ℚ) := by
    simp only [fxOf, baseOf]; ring
  have hd : dx = 1 / 128 := by norm_num [dx, n_grid]
  have hi : inv_dx = 128 := by norm_num [inv_dx, n_grid]
  rw [hd] at h1 h2 h3 h4
  constructor
  · rw [e1]; exact frac_band _ (by rw [hi]; linarith)
  · rw [e2]; exact frac_band _ (by rw [hi]; linarith)

/-! ## C5 -/

/-- C5: the three quadratic B-spline weights used per axis in both P2G
and G2P sum exactly to 1, for every fractional offset `f`. -/
theorem bspline_weights_sum_to_one (f : ℚ) :
    bsplineW f 0 + bsplineW f 1 + bsplineW f 2 = 1 := by
  simp [bsplineW]; ring

/-! ## C8 -/

/-- C8: the grid carries no state across substeps — running `substep`
from the same particle state but two arbitrary leftover grid contents
yields identical final particle states and identical final grid states,
because the grid is reset to zero before P2G. -/
theorem substep_ignores_incoming_grid (grav : ℚ)
    (svdFn : Mat2 → Mat2 × Mat2 × Mat2) (sqrtFn expFn : ℚ → ℚ)
    (ps : List Particle) (gA gB : Grid) :
    substep grav svdFn sqrtFn expFn ⟨ps, gA⟩ = substep grav svdFn sqrtFn expFn ⟨ps, gB⟩ := rfl

/-! ## C2 -/

/-- A leftover grid filled with mass 1 and momentum `(1, 0)` at every node. -/
def gridAllOnes : Grid := { v := fun _ => (1, 0), m := fun _ => 1 }

/-- C2 fails as stated: after GridUpdate on `gridAllOnes`, the node
`(n_grid − 3, 10) = (125, 10)` keeps x-velocity `1 > 0`, because the
source condition `i > n_grid - 3` only covers `i ∈ {126, 127}`. -/
theorem boundary_band_counterexample :
    ¬ ((enforce_boundary (update_gridv gravity gridAllOnes)).v (n_grid - 3, 10)).1 ≤ 0 := by
  norm_num [enforce_boundary, update_gridv, gridAllOnes, enforceNode, vsmul,
    gravity, dt, n_grid]

theorem enforceNode_fst (ij : ℤ × ℤ) (v : Vec2) :
    (enforceNode ij v).1 =
      if n_grid - 3 < ij.1 ∧ 0 < (if ij.1 < 3 ∧ v.1 < 0 then 0 else v.1) then 0
      else (if ij.1 < 3 ∧ v.1 < 0 then 0 else v.1) := rfl

theorem enforceNode_snd (ij : ℤ × ℤ) (v : Vec2) :
    (enforceNode ij v).2 =
      if n_grid - 3 < ij.2 ∧ 0 < (if ij.2 < 3 ∧ v.2 < 0 then 0 else v.2) then 0
      else (if ij.2 < 3 ∧ v.2 < 0 then 0 else v.2) := rfl

theorem enforceNode_low1 (ij : ℤ × ℤ) (v : Vec2) (h : ij.1 < 3) :
    0 ≤ (enforceNode ij v).1 := by
  have hng : ¬ (n_grid - 3 < ij.1) := by simp only [n_grid] at h ⊢; omega
  rw [enforceNode_fst]
  simp only [hng, false_and, if_false, h, true_and]
  split_ifs with h1
  · exact le_rfl
  · exact le_of_not_lt h1

theorem enforceNode_high1 (ij : ℤ × ℤ) (v : Vec2) (h : n_grid - 2 ≤ ij.1) :
    (enforceNode ij v).1 ≤ 0 := by
  have hng : n_grid - 3 < ij.1 := by omega
  have h3 : ¬ ij.1 < 3 := by simp only [n_grid] at h; omega
  rw [enforceNode_fst]
  simp only [h3, false_and, if_false, hng, true_and]
  split_ifs with h1
  · exact le_rfl
  · exact le_of_not_lt h1

theorem enforceNode_low2 (ij : ℤ × ℤ) (v : Vec2) (h : ij.2 < 3) :
    0 ≤ (enforceNode ij v).2 := by
  have hng : ¬ (n_grid - 3 < ij.2) := by simp only [n_grid] at h ⊢; omega
  rw [enforceNode_snd]
  simp only [hng, false_and, if_false, h, true_and]
  split_ifs with h1
  · exact le_rfl
  · exact le_of_not_lt h1

theorem enforceNode_high2 (ij : ℤ × ℤ) (v : Vec2) (h : n_grid - 2 ≤ ij.2) :
    (enforceNode ij v).2 ≤ 0 := by
  have hng : n_grid - 3 < ij.2 := by omega
  have h3 : ¬ ij.2 < 3 := by simp only [n_grid] at h; omega
  rw [enforceNode_snd]
  simp only [h3, false_and, if_false, hng, true_and]
  split_ifs with h1
  · exact le_rfl
  · exact le_of_not_lt h1

/-- C2 (amended): after GridUpdate, nodes with `i ∈ {0, 1, 2}` have
x-velocity ≥ 0 and nodes with `j ∈ {0, 1, 2}` have y-velocity ≥ 0 as
claimed, but on the high edges only the last TWO rows/columns are
clamped: nodes with `i ∈ {n_grid−2, n_grid−1}` have x-velocity ≤ 0 and
nodes with `j ∈ {n_grid−2, n_grid−1}` have y-velocity ≤ 0.  The row
`i = n_grid − 3` (and column `j = n_grid − 3`) is not clamped. -/
theorem boundary_bands (grav : ℚ) (g : Grid) (i j : ℤ) :
    (i < 3 → 0 ≤ ((enforce_boundary (update_gridv grav g)).v (i, j)).1) ∧
    (n_grid - 2 ≤ i → ((enforce_boundary (update_gridv grav g)).v (i, j)).1 ≤ 0) ∧
    (j < 3 → 0 ≤ ((enforce_boundary (update_gridv grav g)).v (i, j)).2) ∧
    (n_grid - 2 ≤ j → ((enforce_boundary (update_gridv grav g)).v (i, j)).2 ≤ 0) :=
  ⟨fun h => enforceNode_low1 (i, j) _ h,
   fun h => enforceNode_high1 (i, j) _ h,
   fun h => enforceNode_low2 (i, j) _ h,
   fun h => enforceNode_high2 (i, j) _ h⟩

/-- Witness for C2 (amended) at the node `(2, 127)` of `gridAllOnes`. -/
theorem boundary_bands_witness :
    0 ≤ ((enforce_boundary (update_gridv gravity gridAllOnes)).v (2, 127)).1 ∧
    ((enforce_boundary (update_gridv gravity gridAllOnes)).v (2, 127)).2 ≤ 0 :=
  ⟨(boundary_bands gravity gridAllOnes 2 127).1 (by norm_num),
   (boundary_bands gravity gridAllOnes 2 127).2.2.2 (by norm_num [n_grid])⟩

/-! ## C10 -/

/-- C10: for positions in the band `[3·dx, 1 − 3·dx]²`, the base cell
computed by both the P2G scatter loop and the G2P gather loop lies in
`[2, n_grid − 4]²`, so every accessed index `base + offset` with offsets
in `{0, 1, 2}²` lies inside the grid. -/
theorem scatter_gather_in_bounds (q : Vec2) (h : inBand q) :
    (2 ≤ (baseOf q).1 ∧ (baseOf q).1 ≤ n_grid - 4 ∧
     2 ≤ (baseOf q).2 ∧ (baseOf q).2 ≤ n_grid - 4) ∧
    ∀ off ∈ offsets, inWindow ((baseOf q).1 + (off.1 : ℤ), (baseOf q).2 + (off.2 : ℤ)) := by
  obtain ⟨h1, h2, h3, h4⟩ := h
  have hd : dx = 1 / 128 := by norm_num [dx, n_grid]
  have hi : inv_dx = 128 := by norm_num [inv_dx, n_grid]
  rw [hd] at h1 h2 h3 h4
  have b1 := truncQ_bounds (q.1 * inv_dx - 1 / 2) (by rw [hi]; linarith) (by rw [hi]; linarith)
  have b2 := truncQ_bounds (q.2 * inv_dx - 1 / 2) (by rw [hi]; linarith) (by rw [hi]; linarith)
  have hb1 : (baseOf q).1 = truncQ (q.1 * inv_dx - 1 / 2) := rfl
  have hb2 : (baseOf q).2 = truncQ (q.2 * inv_dx - 1 / 2) := rfl
  refine ⟨⟨?_, ?_, ?_, ?_⟩, ?_⟩
  · omega
  · simp only [n_grid]; omega
  · omega
  · simp only [n_grid]; omega
  · intro off hoff
    fin_cases hoff <;>
      simp only [inWindow, n_grid, hb1, hb2] <;>
      push_cast <;> omega

/-- Witness for C10 at position `(1/2, 1/2)`. -/
theorem scatter_gather_in_bounds_witness :
    2 ≤ (baseOf ((1 : ℚ) / 2, (1 : ℚ) / 2)).1 ∧
    inWindow ((baseOf ((1 : ℚ) / 2, (1 : ℚ) / 2)).1 + ((2 : ℕ) : ℤ),
              (baseOf ((1 : ℚ) / 2, (1 : ℚ) / 2)).2 + ((2 : ℕ) : ℤ)) := by
  have h := scatter_gather_in_bounds ((1 : ℚ) / 2, (1 : ℚ) / 2) (by norm_num [inBand, dx, n_grid])
  exact ⟨h.1.1, h.2 (2, 2) (by norm_num [offsets])⟩

/-! ## C1 -/

theorem totalGridMass_addGrid (g : Grid) (pos : ℤ × ℤ) (dv : Vec2) (dm : ℚ)
    (h : pos ∈ Finset.Icc (0 : ℤ) (n_grid - 1) ×ˢ Finset.Icc (0 : ℤ) (n_grid - 1)) :
    totalGridMass (addGrid g pos dv dm) = totalGridMass g + dm := by
  unfold totalGridMass addGrid
  simp only []
  have step : ∀ ij : ℤ × ℤ,
      (if ij = pos then g.m ij + dm else g.m ij) = g.m ij + (if ij = pos then dm else 0) := by
    intro ij; split <;> simp
  rw [Finset.sum_congr rfl (fun ij _ => step ij), Finset.sum_add_distrib,
    Finset.sum_ite_eq' _ pos (fun _ => dm), if_pos h]

theorem totalGridMass_scatter (g : Grid) (p : Particle) (aff : Mat2)
    (h : scatterInBounds p) :
    totalGridMass (scatterP2G g p aff) = totalGridMass g + p_mass := by
  obtain ⟨h1, h2, h3, h4⟩ := h
  have hmem : ∀ i j : ℕ, i ≤ 2 → j ≤ 2 →
      ((baseOf p.x).1 + (i : ℤ), (baseOf p.x).2 + (j : ℤ)) ∈
        Finset.Icc (0 : ℤ) (n_grid - 1) ×ˢ Finset.Icc (0 : ℤ) (n_grid - 1) := by
    intro i j hi hj
    simp only [n_grid] at h1 h2 h3 h4 ⊢
    simp only [Finset.mem_product, Finset.mem_Icc]
    have hiz : (i : ℤ) ≤ 2 := by exact_mod_cast hi
    have hjz : (j : ℤ) ≤ 2 := by exact_mod_cast hj
    constructor <;> constructor <;> omega
  unfold scatterP2G offsets
  simp only [List.foldl_cons, List.foldl_nil]
  rw [totalGridMass_addGrid _ _ _ _ (hmem _ _ (by norm_num) (by norm_num)),
      totalGridMass_addGrid _ _ _ _ (hmem _ _ (by norm_num) (by norm_num)),
      totalGridMass_addGrid _ _ _ _ (hmem _ _ (by norm_num) (by norm_num)),
      totalGridMass_addGrid _ _ _ _ (hmem _ _ (by norm_num) (by norm_num)),
      totalGridMass_addGrid _ _ _ _ (hmem _ _ (by norm_num) (by norm_num)),
      totalGridMass_addGrid _ _ _ _ (hmem _ _ (by norm_num) (by norm_num)),
      totalGridMass_addGrid _ _ _ _ (hmem _ _ (by norm_num) (by norm_num)),
      totalGridMass_addGrid _ _ _ _ (hmem _ _ (by norm_num) (by norm_num)),
      totalGridMass_addGrid _ _ _ _ (hmem _ _ (by norm_num) (by norm_num))]
  simp only [bsplineW]
  norm_num
  ring

theorem totalGridMass_scatterFold (svdFn : Mat2 → Mat2 × Mat2 × Mat2)
    (sqrtFn expFn : ℚ → ℚ) (ps : List Particle) (g : Grid)
    (h : ∀ p ∈ ps, scatterInBounds p) :
    totalGridMass (ps.foldl
      (fun g p => scatterP2G g p (p2gCompute svdFn sqrtFn expFn p).affine) g)
      = totalGridMass g + ps.length * p_mass := by
  induction ps generalizing g with
  | nil => simp
  | cons p ps ih =>
      simp only [List.foldl_cons, List.length_cons]
      rw [ih _ (fun q hq => h q (List.mem_cons_of_mem _ hq)),
          totalGridMass_scatter _ _ _ (h p (List.mem_cons_self _ _))]
      push_cast
      ring

theorem totalGridMass_reset (g : Grid) : totalGridMass (resetGrid g) = 0 := by
  simp [totalGridMass, resetGrid]

/-- C1: when every particle's 3×3 scatter neighborhood lies inside the
grid, the total grid mass after P2G (run, as in `substep`, on the freshly
cleared grid) equals the particle count times the per-particle mass
`p_mass`, exactly. -/
theorem mass_conservation (svdFn : Mat2 → Mat2 × Mat2 × Mat2) (sqrtFn expFn : ℚ → ℚ)
    (g : Grid) (ps : List Particle) (h : ∀ p ∈ ps, scatterInBounds p) :
    totalGridMass (P2G svdFn sqrtFn expFn (resetGrid g) ps).1 = (ps.length : ℚ) * p_mass := by
  unfold P2G
  simp only []
  rw [totalGridMass_scatterFold svdFn sqrtFn expFn ps _ h, totalGridMass_reset]
  ring

/-! ## Shared concrete inputs for witnesses -/

/-- A trivially valid SVD oracle used by witnesses. -/
def svdOne : Mat2 → Mat2 × Mat2 × Mat2 := fun _ => (1, 1, 1)

/-- Identity used as the `sqrt`/`exp` oracle in witnesses. -/
def idQ : ℚ → ℚ := fun q => q

/-- A snow particle at rest in the middle of the domain. -/
def pRest : Particle :=
  { x := (1 / 2, 1 / 2), v := (0, 0), C := 0, F := 1, material := 2, Jp := 1 }

theorem baseOf_half : baseOf ((1 : ℚ) / 2, (1 : ℚ) / 2) = (63, 63) := by
  norm_num [baseOf, truncQ, inv_dx, n_grid]

theorem pRest_inBounds : scatterInBounds pRest := by
  have hb : baseOf pRest.x = (63, 63) := baseOf_half
  simp [scatterInBounds, hb, n_grid]

/-- Witness for C1: a single in-bounds particle. -/
theorem mass_conservation_witness :
    (∀ p ∈ [pRest], scatterInBounds p) ∧
    totalGridMass (P2G svdOne idQ idQ (resetGrid gridAllOnes) [pRest]).1
      = (([pRest] : List Particle).length : ℚ) * p_mass := by
  have hyp : ∀ p ∈ [pRest], scatterInBounds p := by
    intro p hp
    simp only [List.mem_singleton] at hp
    rw [hp]
    exact pRest_inBounds
  exact ⟨hyp, mass_conservation svdOne idQ idQ gridAllOnes [pRest] hyp⟩

/-! ## C4 -/

/-- Every node has nonnegative mass, and a node with zero mass holds zero
momentum. -/
def massNonnegMomZero (g : Grid) : Prop :=
  ∀ ij : ℤ × ℤ, 0 ≤ g.m ij ∧ (g.m ij = 0 → g.v ij = (0, 0))

theorem addGrid_good (g : Grid) (pos : ℤ × ℤ) (dv : Vec2) (dm : ℚ)
    (hg : massNonnegMomZero g) (hdm : 0 ≤ dm) (hz : dm = 0 → dv = (0, 0)) :
    massNonnegMomZero (addGrid g pos dv dm) := by
  intro ij
  obtain ⟨hm, hv⟩ := hg ij
  simp only [addGrid]
  split_ifs with he
  · refine ⟨by linarith, fun h0 => ?_⟩
    have hm0 : g.m ij = 0 := by linarith
    have hd0 : dm = 0 := by linarith
    rw [hv hm0, hz hd0]
    simp [vadd]
  · exact ⟨hm, hv⟩

theorem pmass_pos : 0 < p_mass := by
  norm_num [p_mass, p_vol, p_rho, dx, n_grid]

theorem bsplineW_nonneg (f : ℚ) (hf : 1 / 2 ≤ f) (hf2 : f < 3 / 2) (i : ℕ) :
    0 ≤ bsplineW f i := by
  unfold bsplineW
  split_ifs
  · positivity
  · nlinarith
  · positivity

theorem scatter_good (g : Grid) (p : Particle) (aff : Mat2)
    (hg : massNonnegMomZero g) (hx : inBand p.x) :
    massNonnegMomZero (scatterP2G g p aff) := by
  obtain ⟨⟨ha1, ha2⟩, hb1, hb2⟩ := fx_band p.x hx
  have hw : ∀ i j : ℕ, 0 ≤ bsplineW (fxOf p.x).1 i * bsplineW (fxOf p.x).2 j * p_mass :=
    fun i j => mul_nonneg
      (mul_nonneg (bsplineW_nonneg _ ha1 ha2 i) (bsplineW_nonneg _ hb1 hb2 j))
      (le_of_lt pmass_pos)
  have hzz : ∀ (i j : ℕ) (u : Vec2),
      bsplineW (fxOf p.x).1 i * bsplineW (fxOf p.x).2 j * p_mass = 0 →
      vsmul (bsplineW (fxOf p.x).1 i * bsplineW (fxOf p.x).2 j) u = (0, 0) := by
    intro i j u h0
    have hw0 : bsplineW (fxOf p.x).1 i * bsplineW (fxOf p.x).2 j = 0 := by
      rcases mul_eq_zero.mp h0 with h | h
      · exact h
      · exact absurd h (ne_of_gt pmass_pos)
    simp [vsmul, hw0]
  simp only [scatterP2G, offsets, List.foldl_cons, List.foldl_nil]
  exact addGrid_good _ _ _ _ (addGrid_good _ _ _ _ (addGrid_good _ _ _ _
    (addGrid_good _ _ _ _ (addGrid_good _ _ _ _ (addGrid_good _ _ _ _
    (addGrid_good _ _ _ _ (addGrid_good _ _ _ _ (addGrid_good _ _ _ _
    hg (hw _ _) (hzz _ _ _)) (hw _ _) (hzz _ _ _)) (hw _ _) (hzz _ _ _))
    (hw _ _) (hzz _ _ _)) (hw _ _) (hzz _ _ _)) (hw _ _) (hzz _ _ _))
    (hw _ _) (hzz _ _ _)) (hw _ _) (hzz _ _ _)) (hw _ _) (hzz _ _ _)

theorem scatterFold_good (svdFn : Mat2 → Mat2 × Mat2 × Mat2) (sqrtFn expFn : ℚ → ℚ)
    (ps : List Particle) (g : Grid) (hg : massNonnegMomZero g)
    (hball : ∀ p ∈ ps, inBand p.x) :
    massNonnegMomZero (ps.foldl
      (fun g p => scatterP2G g p (p2gCompute svdFn sqrtFn expFn p).affine) g) := by
  induction ps generalizing g with
  | nil => exact hg
  | cons p ps ih =>
      simp only [List.foldl_cons]
      exact ih _ (scatter_good _ _ _ hg (hball p (List.mem_cons_self _ _)))
        (fun q hq => hball q (List.mem_cons_of_mem _ hq))

theorem resetGrid_good (g : Grid) : massNonnegMomZero (resetGrid g) :=
  fun _ => ⟨le_rfl, fun _ => rfl⟩

theorem enforceNode_zero (ij : ℤ × ℤ) : enforceNode ij (0, 0) = (0, 0) := by
  simp [enforceNode]

/-- C4: in GridUpdate a node with positive mass gets its momentum divided
by its mass and gravity applied to the y-component, while a node without
positive mass is skipped and keeps its stored vector; moreover, inside a
substep a node whose mass after P2G is zero still holds the zero vector
it was cleared to, so it ends GridUpdate (with boundary enforcement) at
zero velocity and no division is ever performed on it. -/
theorem zero_mass_guard (grav : ℚ) (g : Grid) (ij : ℤ × ℤ)
    (svdFn : Mat2 → Mat2 × Mat2 × Mat2) (sqrtFn expFn : ℚ → ℚ)
    (ps : List Particle) (hball : ∀ p ∈ ps, inBand p.x) :
    ((0 < g.m ij → (update_gridv grav g).v ij =
        ((1 / g.m ij) * (g.v ij).1, (1 / g.m ij) * (g.v ij).2 - dt * grav)) ∧
     (¬ 0 < g.m ij → (update_gridv grav g).v ij = g.v ij)) ∧
    ((P2G svdFn sqrtFn expFn (resetGrid g) ps).1.m ij = 0 →
      (enforce_boundary (update_gridv grav
        (P2G svdFn sqrtFn expFn (resetGrid g) ps).1)).v ij = (0, 0)) := by
  constructor
  · constructor
    · intro hm
      simp only [update_gridv, if_pos hm, vsmul]
    · intro hm
      simp only [update_gridv, if_neg hm]
  · intro hm0
    have hgood : massNonnegMomZero (P2G svdFn sqrtFn expFn (resetGrid g) ps).1 := by
      unfold P2G
      exact scatterFold_good svdFn sqrtFn expFn ps _ (resetGrid_good g) hball
    have hv0 : (P2G svdFn sqrtFn expFn (resetGrid g) ps).1.v ij = (0, 0) :=
      (hgood ij).2 hm0
    have hnot : ¬ 0 < (P2G svdFn sqrtFn expFn (resetGrid g) ps).1.m ij := by
      rw [hm0]; exact lt_irrefl 0
    simp only [enforce_boundary, update_gridv, if_neg hnot, hv0, enforceNode_zero]

theorem pRest_inBand : inBand pRest.x := by
  norm_num [inBand, pRest, dx, n_grid]

/-- Witness for C4: a node with mass 1 takes the normalization branch,
and the hypotheses are satisfiable with one in-band particle. -/
theorem zero_mass_guard_witness :
    0 < gridAllOnes.m (0, 0) ∧
    (update_gridv gravity gridAllOnes).v (0, 0) =
      ((1 / gridAllOnes.m (0, 0)) * (gridAllOnes.v (0, 0)).1,
       (1 / gridAllOnes.m (0, 0)) * (gridAllOnes.v (0, 0)).2 - dt * gravity) := by
  have hball : ∀ p ∈ [pRest], inBand p.x := by
    intro p hp
    simp only [List.mem_singleton] at hp
    rw [hp]
    exact pRest_inBand
  have h := zero_mass_guard gravity gridAllOnes (0, 0) svdOne idQ idQ [pRest] hball
  have hm : 0 < gridAllOnes.m (0, 0) := by norm_num [gridAllOnes]
  exact ⟨hm, h.1.1 hm⟩

/-! ## C6 -/

/-- C6: for a Fluid particle (material 0) the constitutive step of P2G
rebuilds the deformation gradient as `sqrt(J) · I` with `J` the product
of the singular values of the updated `F`, and — since the shear modulus
is forced to 0 — the computed stress equals `λ·J·(J−1) · I`, which has
zero off-diagonal entries and equal diagonal entries (zero deviatoric
component). -/
theorem fluid_isotropic_stress (svdFn : Mat2 → Mat2 × Mat2 × Mat2)
    (sqrtFn expFn : ℚ → ℚ) (p : Particle) (hm : p.material = 0) :
    (p2gCompute svdFn sqrtFn expFn p).Fnew
        = sqrtFn (p2gCompute svdFn sqrtFn expFn p).J • (1 : Mat2) ∧
    (p2gCompute svdFn sqrtFn expFn p).J
        = (svdFn (((1 : Mat2) + dt • p.C) * p.F)).2.1.a
          * (svdFn (((1 : Mat2) + dt • p.C) * p.F)).2.1.d ∧
    (p2gCompute svdFn sqrtFn expFn p).stress
        = ((p2gCompute svdFn sqrtFn expFn p).la
           * (p2gCompute svdFn sqrtFn expFn p).J
           * ((p2gCompute svdFn sqrtFn expFn p).J - 1)) • (1 : Mat2) ∧
    (p2gCompute svdFn sqrtFn expFn p).stress.b = 0 ∧
    (p2gCompute svdFn sqrtFn expFn p).stress.c = 0 ∧
    (p2gCompute svdFn sqrtFn expFn p).stress.a = (p2gCompute svdFn sqrtFn expFn p).stress.d := by
  refine ⟨?_, ?_, ?_, ?_, ?_, ?_⟩ <;>
    simp only [p2gCompute, hm] <;>
    norm_num <;>
    ext <;> simp <;> ring

/-- Witness for C6: a concrete fluid particle. -/
theorem fluid_isotropic_stress_witness :
    ({ pRest with material := 0 } : Particle).material = 0 ∧
    (p2gCompute svdOne idQ idQ { pRest with material := 0 }).stress.b = 0 :=
  ⟨rfl, (fluid_isotropic_stress svdOne idQ idQ { pRest with material := 0 } rfl).2.2.2.1⟩

/-! ## C9 -/

theorem p2g_Jp_unchanged (svdFn : Mat2 → Mat2 × Mat2 × Mat2) (sqrtFn expFn : ℚ → ℚ)
    (p : Particle) (hm : p.material = 0 ∨ p.material = 1)
    (ha : (svdFn (((1 : Mat2) + dt • p.C) * p.F)).2.1.a ≠ 0)
    (hd : (svdFn (((1 : Mat2) + dt • p.C) * p.F)).2.1.d ≠ 0) :
    (p2gCompute svdFn sqrtFn expFn p).Jpnew = p.Jp := by
  have hm2 : p.material ≠ 2 := by rcases hm with h | h <;> rw [h] <;> norm_num
  simp only [p2gCompute, if_neg hm2]
  rw [div_self ha, div_self hd]
  ring

theorem g2pParticle_Jp (g : Grid) (q : Particle) : (g2pParticle g q).Jp = q.Jp := rfl

theorem g2pParticle_material (g : Grid) (q : Particle) :
    (g2pParticle g q).material = q.material := rfl

theorem substep_particles_getElem (grav : ℚ) (svdFn : Mat2 → Mat2 × Mat2 × Mat2)
    (sqrtFn expFn : ℚ → ℚ) (s : SimState) (i : ℕ) :
    (substep grav svdFn sqrtFn expFn s).particles[i]? =
      (s.particles[i]?).map (fun q =>
        g2pParticle (substep grav svdFn sqrtFn expFn s).grid
          (p2gParticle svdFn sqrtFn expFn q)) := by
  simp only [substep, G2P, P2G]
  rw [List.getElem?_map, List.getElem?_map, Option.map_map]
  rfl

/-- C9: for a Fluid or Jelly particle, `Jp` (and the material tag) is
unchanged by any number of substeps, provided the SVD always returns
nonzero singular values; in particular a particle initialized with
`Jp = 1` keeps `Jp = 1` for its whole lifetime. -/
theorem fluid_jelly_Jp_constant (svdFn : Mat2 → Mat2 × Mat2 × Mat2)
    (sqrtFn expFn : ℚ → ℚ)
    (hsig : ∀ M : Mat2, (svdFn M).2.1.a ≠ 0 ∧ (svdFn M).2.1.d ≠ 0)
    (grav : ℚ) (s0 : SimState) (i : ℕ) (q : Particle)
    (hq : s0.particles[i]? = some q) (hm : q.material = 0 ∨ q.material = 1)
    (n : ℕ) (p : Particle)
    (hp : (substepN grav svdFn sqrtFn expFn n s0).particles[i]? = some p) :
    p.Jp = q.Jp ∧ p.material = q.material := by
  induction n generalizing p with
  | zero =>
      simp only [substepN] at hp
      rw [hq] at hp
      injection hp with hp
      rw [← hp]
      exact ⟨rfl, rfl⟩
  | succ n ih =>
      simp only [substepN] at hp
      rw [substep_particles_getElem] at hp
      cases hmid : (substepN grav svdFn sqrtFn expFn n s0).particles[i]? with
      | none => rw [hmid] at hp; simp at hp
      | some r =>
          rw [hmid] at hp
          simp only [Option.map_some'] at hp
          injection hp with hp
          obtain ⟨hJp, hmat⟩ := ih r hmid
          have hrm : r.material = 0 ∨ r.material = 1 := by rw [hmat]; exact hm
          rw [← hp]
          constructor
          · rw [g2pParticle_Jp]
            show (p2gCompute svdFn sqrtFn expFn r).Jpnew = q.Jp
            rw [p2g_Jp_unchanged svdFn sqrtFn expFn r hrm (hsig _).1 (hsig _).2]
            exact hJp
          · rw [g2pParticle_material]
            show r.material = q.material
            exact hmat

/-- Witness for C9: a fluid particle over one substep. -/
theorem fluid_jelly_Jp_constant_witness :
    ({ pRest with material := 0 } : Particle).Jp = ({ pRest with material := 0 } : Particle).Jp ∧
    ({ pRest with material := 0 } : Particle).material
      = ({ pRest with material := 0 } : Particle).material := by
  have hsig : ∀ M : Mat2, (svdOne M).2.1.a ≠ 0 ∧ (svdOne M).2.1.d ≠ 0 := by
    intro M
    constructor <;> norm_num [svdOne]
  have hq : ([({ pRest with material := 0 } : Particle)] : List Particle)[0]?
      = some { pRest with material := 0 } := rfl
  exact fluid_jelly_Jp_constant svdOne idQ idQ hsig gravity
    ⟨[{ pRest with material := 0 }], gridAllOnes⟩ 0 _ hq (Or.inl rfl) 0 _ hq

/-! ## C7 -/

theorem clamp_one : min (max (1 : ℚ) (1 - 25 / 1000)) (1 + 45 / 10000) = 1 := by
  rw [max_eq_left (by norm_num), min_eq_left (by norm_num)]

theorem p2gCompute_atRest (svdFn : Mat2 → Mat2 × Mat2 × Mat2) (sqrtFn expFn : ℚ → ℚ)
    (p : Particle) (hsvd1 : svdFn 1 = (1, 1, 1)) (hsq : sqrtFn 1 = 1)
    (hC : p.C = 0) (hF : p.F = 1) (hJp : p.Jp = 1) :
    (p2gCompute svdFn sqrtFn expFn p).Fnew = 1 ∧
    (p2gCompute svdFn sqrtFn expFn p).Jpnew = 1 ∧
    (p2gCompute svdFn sqrtFn expFn p).affine = 0 := by
  have hF1 : ((1 : Mat2) + dt • p.C) * p.F = 1 := by
    rw [hC, hF]; ext <;> simp
  refine ⟨?_, ?_, ?_⟩ <;>
      simp only [p2gCompute, hF1, hsvd1, hJp, hC] <;>
      split_ifs <;>
      simp_all [clamp_one, hsq] <;>
      ext <;>
      simp [Mat2.mulVec] <;>
      ring

theorem addGrid_v_dvzero (g : Grid) (pos : ℤ × ℤ) (dm : ℚ) :
    (addGrid g pos (0, 0) dm).v = g.v := by
  funext q
  simp only [addGrid]
  split_ifs <;> simp [vadd]

theorem scatter_v_atRest (g : Grid) (p : Particle) (hv : p.v = (0, 0)) :
    (scatterP2G g p 0).v = g.v := by
  have hz : ∀ (w : ℚ) (d : Vec2),
      vsmul w (vadd (vsmul p_mass (0, 0)) (Mat2.mulVec 0 d)) = (0, 0) := by
    intro w d
    simp [vsmul, vadd, Mat2.mulVec]
  simp only [scatterP2G, offsets, List.foldl_cons, List.foldl_nil, hv, hz,
    addGrid_v_dvzero]

theorem update0_v (g : Grid) (hv : ∀ ij, g.v ij = (0, 0)) :
    ∀ ij, (update_gridv 0 g).v ij = (0, 0) := by
  intro ij
  simp only [update_gridv]
  split_ifs with h
  · simp [vsmul, hv ij]
  · exact hv ij

theorem enforce_v_zero (g : Grid) (hv : ∀ ij, g.v ij = (0, 0)) :
    ∀ ij, (enforce_boundary g).v ij = (0, 0) := by
  intro ij
  simp only [enforce_boundary, hv ij, enforceNode_zero]

theorem g2p_atRest (g : Grid) (hv : ∀ ij, g.v ij = (0, 0)) (q : Particle) :
    g2pParticle g q = { q with v := (0, 0), C := 0, x := q.x } := by
  simp only [g2pParticle, offsets, List.foldl_cons, List.foldl_nil, hv]
  simp only [vadd, vsmul, Mat2.outer]
  norm_num
  all_goals first
    | exact Prod.mk.eta
    | (ext <;> simp)

/-- Helper: an at-rest particle (zero velocity, zero `C`, identity `F`,
`Jp = 1`) is a fixed point of `substep` with gravity 0, whenever the SVD
oracle maps the identity to `(I, I, I)` and `sqrt 1 = 1`. -/
theorem substep_atRest (svdFn : Mat2 → Mat2 × Mat2 × Mat2) (sqrtFn expFn : ℚ → ℚ)
    (hsvd1 : svdFn 1 = (1, 1, 1)) (hsq : sqrtFn 1 = 1)
    (g : Grid) (p : Particle)
    (hv : p.v = (0, 0)) (hC : p.C = 0) (hF : p.F = 1) (hJp : p.Jp = 1) :
    (substep 0 svdFn sqrtFn expFn ⟨[p], g⟩).particles = [p] := by
  obtain ⟨hFnew, hJpnew, haff⟩ :=
    p2gCompute_atRest svdFn sqrtFn expFn p hsvd1 hsq hC hF hJp
  have hps : (P2G svdFn sqrtFn expFn (resetGrid g) [p]).2 = [p] := by
    simp only [P2G, List.map, p2gParticle, hFnew, hJpnew]
    rw [← hF, ← hJp]
  have hgv : ∀ ij, (P2G svdFn sqrtFn expFn (resetGrid g) [p]).1.v ij = (0, 0) := by
    intro ij
    simp only [P2G, List.foldl_cons, List.foldl_nil, haff]
    rw [scatter_v_atRest _ _ hv]
    rfl
  simp only [substep, G2P]
  rw [hps]
  simp only [List.map]
  rw [g2p_atRest _ (enforce_v_zero _ (update0_v _ hgv)) p]
  rw [← hv, ← hC]

/-- C7: a single isolated particle of any material, with zero velocity,
zero affine matrix, identity deformation gradient, `Jp = 1`, positioned
at least 3 cells from every domain edge, under zero gravity, is left
entirely unchanged by one substep: the identity `F` produces zero
constitutive stress, only zero momentum is scattered, and advection
moves nothing. -/
theorem at_rest_particle_unchanged (svdFn : Mat2 → Mat2 × Mat2 × Mat2)
    (sqrtFn expFn : ℚ → ℚ)
    (hsvd1 : svdFn 1 = (1, 1, 1)) (hsq : sqrtFn 1 = 1)
    (g : Grid) (p : Particle) (_hx : inBand p.x)
    (hv : p.v = (0, 0)) (hC : p.C = 0) (hF : p.F = 1) (hJp : p.Jp = 1) :
    (substep 0 svdFn sqrtFn expFn ⟨[p], g⟩).particles = [p] :=
  substep_atRest svdFn sqrtFn expFn hsvd1 hsq g p hv hC hF hJp

/-- Witness for C7: the concrete snow particle `pRest`. -/
theorem at_rest_particle_unchanged_witness :
    (substep 0 svdOne idQ idQ ⟨[pRest], gridAllOnes⟩).particles = [pRest] :=
  at_rest_particle_unchanged svdOne idQ idQ rfl rfl gridAllOnes pRest
    pRest_inBand rfl rfl rfl rfl

/-! ## C3 -/

theorem mat_transpose_transpose (M : Mat2) : M.transpose.transpose = M := by
  ext <;> simp

theorem mat_mul_sub (M N P : Mat2) : M * (N - P) = M * N - M * P := by
  ext <;> simp <;> ring

theorem mat_sub_mul (M N P : Mat2) : (M - N) * P = M * P - N * P := by
  ext <;> simp <;> ring

theorem mat_mul_smul (k : ℚ) (M N : Mat2) : M * (k • N) = k • (M * N) := by
  ext <;> simp <;> ring

theorem mat_smul_mul (k : ℚ) (M N : Mat2) : (k • M) * N = k • (M * N) := by
  ext <;> simp <;> ring

/-- Singular values of `U * S * Vᵀ` with `U`, `V` orthogonal and `S`
diagonal: the square of any singular value is the square of a diagonal
entry of `S`. -/
theorem sv_of_orthogonal_diag (U S V : Mat2)
    (hU : U.transpose * U = 1)
    (hV : V.transpose * V = 1) (hV2 : V * V.transpose = 1)
    (hb : S.b = 0) (hc : S.c = 0) (s : ℚ)
    (hs : isSingularValue (U * S * V.transpose) s) :
    s ^ 2 = S.a ^ 2 ∨ s ^ 2 = S.d ^ 2 := by
  have hMt : (U * S * V.transpose).transpose = V * S.transpose * U.transpose := by
    rw [Mat2.transpose_mul, Mat2.transpose_mul, mat_transpose_transpose,
      Mat2.mat_mul_assoc]
  have key : (U * S * V.transpose).transpose * (U * S * V.transpose)
      = V * (S.transpose * S) * V.transpose := by
    rw [hMt]
    calc V * S.transpose * U.transpose * (U * S * V.transpose)
        = V * S.transpose * (U.transpose * (U * S * V.transpose)) :=
          Mat2.mat_mul_assoc _ _ _
      _ = V * S.transpose * (U.transpose * (U * (S * V.transpose))) := by
          rw [Mat2.mat_mul_assoc U S V.transpose]
      _ = V * S.transpose * ((U.transpose * U) * (S * V.transpose)) := by
          rw [Mat2.mat_mul_assoc U.transpose U (S * V.transpose)]
      _ = V * S.transpose * (S * V.transpose) := by
          rw [hU, Mat2.mat_one_mul]
      _ = V * (S.transpose * (S * V.transpose)) := Mat2.mat_mul_assoc _ _ _
      _ = V * ((S.transpose * S) * V.transpose) := by
          rw [Mat2.mat_mul_assoc S.transpose S V.transpose]
      _ = V * (S.transpose * S) * V.transpose := (Mat2.mat_mul_assoc _ _ _).symm
  have hdiag : S.transpose * S = (⟨S.a ^ 2, 0, 0, S.d ^ 2⟩ : Mat2) := by
    ext <;> simp [hb, hc] <;> ring
  have hshift : V * (S.transpose * S) * V.transpose - s ^ 2 • (1 : Mat2)
      = V * ((⟨S.a ^ 2, 0, 0, S.d ^ 2⟩ : Mat2) - s ^ 2 • (1 : Mat2)) * V.transpose := by
    rw [hdiag, mat_mul_sub, mat_sub_mul, mat_mul_smul, mat_smul_mul,
      Mat2.mat_mul_one, hV2]
  have hdet0 : ((⟨S.a ^ 2, 0, 0, S.d ^ 2⟩ : Mat2) - s ^ 2 • (1 : Mat2)).det
      = (S.a ^ 2 - s ^ 2) * (S.d ^ 2 - s ^ 2) := by
    simp [Mat2.det]
  have hdetV : V.det * V.transpose.det = 1 := by
    rw [← Mat2.det_mul, hV2]
    simp [Mat2.det]
  obtain ⟨hs0, hsdet⟩ := hs
  rw [key, hshift, Mat2.det_mul, Mat2.det_mul, hdet0] at hsdet
  have : (S.a ^ 2 - s ^ 2) * (S.d ^ 2 - s ^ 2) = 0 := by
    linear_combination hsdet - ((S.a ^ 2 - s ^ 2) * (S.d ^ 2 - s ^ 2)) * hdetV
  rcases mul_eq_zero.mp this with h | h
  · left; linarith
  · right; linarith

theorem clamp_lower (x : ℚ) :
    1 - 25 / 1000 ≤ min (max x (1 - 25 / 1000)) (1 + 45 / 10000) :=
  le_min (le_max_right _ _) (by norm_num)

theorem clamp_upper (x : ℚ) :
    min (max x (1 - 25 / 1000)) (1 + 45 / 10000) ≤ 1 + 45 / 10000 :=
  min_le_right _ _

theorem sq_eq_of_nonneg (s t : ℚ) (hs : 0 ≤ s) (ht : 0 < t) (h : s ^ 2 = t ^ 2) :
    s = t := by
  have h1 : (s - t) * (s + t) = 0 := by linear_combination h
  rcases mul_eq_zero.mp h1 with h2 | h2
  · linarith
  · linarith

/-- For a Snow particle the constitutive step rebuilds `F` as
`U * Σ' * Vᵀ` with both diagonal entries of `Σ'` clamped to
`[1 − 0.025, 1 + 0.0045]`. -/
theorem p2g_snow_F (svdFn : Mat2 → Mat2 × Mat2 × Mat2) (sqrtFn expFn : ℚ → ℚ)
    (p : Particle) (hm : p.material = 2) :
    (p2gCompute svdFn sqrtFn expFn p).Fnew
      = (svdFn (((1 : Mat2) + dt • p.C) * p.F)).1 *
        (⟨min (max (svdFn (((1 : Mat2) + dt • p.C) * p.F)).2.1.a (1 - 25 / 1000)) (1 + 45 / 10000),
          (svdFn (((1 : Mat2) + dt • p.C) * p.F)).2.1.b,
          (svdFn (((1 : Mat2) + dt • p.C) * p.F)).2.1.c,
          min (max (svdFn (((1 : Mat2) + dt • p.C) * p.F)).2.1.d (1 - 25 / 1000)) (1 + 45 / 10000)⟩ : Mat2) *
        (svdFn (((1 : Mat2) + dt • p.C) * p.F)).2.2.transpose := by
  have hm0 : p.material ≠ 0 := by rw [hm]; norm_num
  simp only [p2gCompute, if_neg hm0, if_pos hm]

theorem g2pParticle_F (g : Grid) (q : Particle) : (g2pParticle g q).F = q.F := rfl

/-- C3: after any positive number of substeps, every singular value of a
Snow particle's deformation gradient lies in `[1 − 0.025, 1 + 0.0045]`,
because P2G reconstructs `F = U·Σ·Vᵀ` with every singular value clamped
to that interval. -/
theorem snow_singular_value_bounds (svdFn : Mat2 → Mat2 × Mat2 × Mat2)
    (sqrtFn expFn : ℚ → ℚ) (hsvd : svdValid svdFn)
    (grav : ℚ) (s0 : SimState) (n : ℕ) (hn : 1 ≤ n) (p : Particle)
    (hp : p ∈ (substepN grav svdFn sqrtFn expFn n s0).particles)
    (hm : p.material = 2) (s : ℚ) (hs : isSingularValue p.F s) :
    1 - 25 / 1000 ≤ s ∧ s ≤ 1 + 45 / 10000 := by
  obtain ⟨m, rfl⟩ : ∃ m, n = m + 1 := ⟨n - 1, by omega⟩
  simp only [substepN, substep, G2P, P2G, List.map_map, List.mem_map] at hp
  obtain ⟨q, hq, hpq⟩ := hp
  have hFq : p.F = (p2gCompute svdFn sqrtFn expFn q).Fnew := by
    rw [← hpq]; rfl
  have hmq : q.material = 2 := by
    have : p.material = q.material := by rw [← hpq]; rfl
    rw [← this, hm]
  rw [hFq, p2g_snow_F svdFn sqrtFn expFn q hmq] at hs
  obtain ⟨hU, hV, hV2, hsb, hsc⟩ := hsvd (((1 : Mat2) + dt • q.C) * q.F)
  have hsq2 := sv_of_orthogonal_diag
    ((svdFn (((1 : Mat2) + dt • q.C) * q.F)).1)
    (⟨min (max ((svdFn (((1 : Mat2) + dt • q.C) * q.F)).2.1.a) (1 - 25 / 1000)) (1 + 45 / 10000),
      (svdFn (((1 : Mat2) + dt • q.C) * q.F)).2.1.b,
      (svdFn (((1 : Mat2) + dt • q.C) * q.F)).2.1.c,
      min (max ((svdFn (((1 : Mat2) + dt • q.C) * q.F)).2.1.d) (1 - 25 / 1000)) (1 + 45 / 10000)⟩ : Mat2)
    ((svdFn (((1 : Mat2) + dt • q.C) * q.F)).2.2) hU hV hV2 hsb hsc s hs
  have hs0 : 0 ≤ s := hs.1
  have hlo := clamp_lower ((svdFn (((1 : Mat2) + dt • q.C) * q.F)).2.1.a)
  have hhi := clamp_upper ((svdFn (((1 : Mat2) + dt • q.C) * q.F)).2.1.a)
  have hlo2 := clamp_lower ((svdFn (((1 : Mat2) + dt • q.C) * q.F)).2.1.d)
  have hhi2 := clamp_upper ((svdFn (((1 : Mat2) + dt • q.C) * q.F)).2.1.d)
  rcases hsq2 with h | h
  · have := sq_eq_of_nonneg s _ hs0 (by linarith) h
    constructor <;> linarith
  · have := sq_eq_of_nonneg s _ hs0 (by linarith) h
    constructor <;> linarith

/-- Witness for C3: the snow particle `pRest` after one substep, with the
trivial SVD oracle, has singular value 1 inside the clamp interval. -/
theorem snow_singular_value_bounds_witness :
    1 - 25 / 1000 ≤ (1 : ℚ) ∧ (1 : ℚ) ≤ 1 + 45 / 10000 := by
  have hsvd : svdValid svdOne := by
    intro M
    refine ⟨?_, ?_, ?_, rfl, rfl⟩ <;> (ext <;> simp [svdOne])
  have hp1 : (substepN 0 svdOne idQ idQ 1 ⟨[pRest], gridAllOnes⟩).particles = [pRest] := by
    simp only [substepN]
    exact substep_atRest svdOne idQ idQ rfl rfl gridAllOnes pRest rfl rfl rfl rfl
  have hp : pRest ∈ (substepN 0 svdOne idQ idQ 1 ⟨[pRest], gridAllOnes⟩).particles := by
    rw [hp1]
    exact List.mem_singleton.mpr rfl
  have hs : isSingularValue pRest.F 1 := by
    constructor
    · norm_num
    · show ((1 : Mat2).transpose * 1 - ((1 : ℚ) ^ 2) • (1 : Mat2)).det = 0
      simp [Mat2.det]
  exact snow_singular_value_bounds svdOne idQ idQ hsvd 0 ⟨[pRest], gridAllOnes⟩ 1
    le_rfl pRest hp rfl 1 hs
